import Mathlib

/-! Shallow embedding of the OpenDP detailed-placement pipeline in
`src/opendp/src/place.cpp` (namespace `opendp`): the orchestration
`Opendp::simplePlacement`, the greedy placers, the pre-placement snappers,
the brick fallback placers, the displacement refiners and the randomized
annealers.  The low-level grid primitives (`map_move`, `shift_move`,
`swap_cell`, `refine_move`, `erase_pixel`, the geometric predicates and the
pseudorandom source) live outside this translation unit; they are modelled
from the spec's external-interface contracts, as oracles collected in `Ext`
or as small state transformers, each marked in its doc comment.

Machine integers are modelled as `Int`/`Nat` (no arithmetic in the sources
comes near overflow in the claims considered); C++ `double` configuration
values (`util`, refine percentages) are modelled as `ℚ`, which is faithful
for the comparisons the code performs; C++ integer division (truncation
toward zero) is `Int.tdiv`.
-/

namespace OpendpModel

/-- The `adsRect` record: an axis-aligned rectangle (min/max x, min/max y). -/
structure AdsRect where
  xMin : Int
  xMax : Int
  yMin : Int
  yMax : Int
deriving DecidableEq, Repr

/-- One placeable instance (`struct Cell`).  `isMulti` inlines
`cell->cell_macro->isMulti` (the only field of the cell template the code in
`place.cpp` reads); `isFixed` inlines the `isFixed(cell)` predicate;
`id` is `cell->db_inst->getId()`; `init_x`/`init_y` are the original target
coordinates returned by `initLocation`; `x`/`y` the committed grid
coordinates; `region` is `cell->region`, the individually assigned region
rectangle. -/
structure Cell where
  id : Nat
  area : Int
  dense_factor : Int
  isMulti : Bool
  isFixed : Bool
  is_placed : Bool
  hold : Bool
  inGroup : Bool
  x : Int
  y : Int
  init_x : Int
  init_y : Int
  region : AdsRect
deriving DecidableEq, Repr

/-- The mutable cell population: cells are addressed by stable handles
(indices standing for the C++ `Cell*` pointers). -/
def S : Type := Nat → Cell

/-- Point update of the cell store (mutation through a `Cell*`). -/
def upd (s : S) (i : Nat) (c : Cell) : S :=
  fun j => if j = i then c else s j

/-- A `Group` ("fence"): member cells (`siblings`, as handles), allowed
region rectangles, the overall bounding rectangle, and the target
utilization ratio (`double util` modelled as `ℚ`). -/
structure Group where
  siblings : List Nat
  regions : List AdsRect
  boundary : AdsRect
  util : ℚ

/-- Comparator `sortUpOrder` from place.cpp:56-69: descending area, then descending
`dense_factor`, then ascending id. -/
def sortUpOrder (cell1 cell2 : Cell) : Bool :=
  let area1 := cell1.area
  let area2 := cell2.area
  if area1 > area2 then true
  else if area1 < area2 then false
  else if cell1.dense_factor > cell2.dense_factor then true
  else if cell1.dense_factor < cell2.dense_factor then false
  else decide (cell1.id < cell2.id)

/-- Insert into a sorted list: `a` goes before the first element `b` with
`le a b`. -/
def insertLe {α : Type} (le : α → α → Bool) (a : α) : List α → List α
  | [] => [a]
  | b :: l => if le a b then a :: b :: l else b :: insertLe le a l

/-- Model of `std::sort` with a strict-weak-order comparator `comp`,
invoked as `sortWith (fun a b => !comp b a)`: a stable insertion sort.
`std::sort` promises some order in which no element is preceded by one it
strictly precedes; for the strict total orders used by the greedy placers
the result is unique, and for comparators that deem elements equivalent
this realization keeps the original (deterministic) order. -/
def sortWith {α : Type} (le : α → α → Bool) : List α → List α
  | [] => []
  | a :: l => insertLe le a (sortWith le l)

/-- Oracles for the external Geometry/Grid Service (the grid primitives and
geometric predicates implemented outside place.cpp) and the configuration
members of `Opendp`.  Every field is a pure function, matching the spec's
single-writer, purely sequential resource model.

Modelled from the spec: `checkOverlap`/`checkInside` are the geometric
predicates `overlaps`/`contains`; `distForRect` is `distance(cell, rect)`;
`nearestCoordToRectBoundary` is `nearest-boundary(cell, rect)`;
`mapMovePos i s` is the landing position found by the legal-position search
of `direct-place(cell)` (or `none` on failure); `mapMoveXYPos i x y s` the
same for `direct-place(cell, x, y)`; `shiftMoveRes` is the whole-grid
effect of the neighbor-displacing `shift-place(cell)`; `refinePos` the
improved position found by `local-improve(cell)` (or `none`); `swapLegal`
the legality criterion of `swap(cellA, cellB)`; `randNext` the step
function of the pseudorandom source (`rand()`: value and next state from
the current state). -/
structure Ext where
  checkOverlap : Cell → AdsRect → Bool
  checkInside : Cell → AdsRect → Bool
  distForRect : Cell → AdsRect → Int
  nearestCoordToRectBoundary : Cell → AdsRect → Int × Int
  mapMovePos : Nat → S → Option (Int × Int)
  mapMoveXYPos : Nat → Int → Int → S → Option (Int × Int)
  shiftMoveRes : Nat → S → S
  refinePos : Nat → S → Option (Int × Int)
  swapLegal : Nat → Nat → S → Bool
  randNext : Nat → Nat × Nat
  group_refine_percent_ : ℚ
  non_group_refine_percent_ : ℚ

/-- Commit a cell at a position: the successful half of the direct-place
contract ("on success marks cell placed and reserves its footprint"). -/
def placeAt (c : Cell) (p : Int × Int) : Cell :=
  { c with x := p.1, y := p.2, is_placed := true }

/-- Modelled from the spec: `map_move(cell)` — direct-place at the cell's
target; declared in Opendp.h, implemented outside place.cpp.  On success
the cell is committed at the landing position the grid search found. -/
def map_move (ext : Ext) (i : Nat) (s : S) : Option S :=
  match ext.mapMovePos i s with
  | some p => some (upd s i (placeAt (s i) p))
  | none => none

/-- Modelled from the spec: `map_move(cell, x, y)` — direct-place at/near
the given coordinates; implemented outside place.cpp. -/
def map_moveXY (ext : Ext) (i : Nat) (x y : Int) (s : S) : Option S :=
  match ext.mapMoveXYPos i x y s with
  | some p => some (upd s i (placeAt (s i) p))
  | none => none

/-- Modelled from the spec: `shift_move(cell)` — best-effort placement by
displacing neighboring cells along a row; implemented outside place.cpp.
Its whole-grid effect is the oracle's. -/
def shift_move (ext : Ext) (i : Nat) (s : S) : S :=
  ext.shiftMoveRes i s

/-- Modelled from the spec: `swap_cell(cellA, cellB)` — exchange two placed
cells' grid positions iff the result is legal for both; implemented outside
place.cpp.  Only the two cells' coordinates change. -/
def swap_cell (ext : Ext) (a b : Nat) (s : S) : Option S :=
  if ext.swapLegal a b s then
    some (upd (upd s a { s a with x := (s b).x, y := (s b).y })
              b { s b with x := (s a).x, y := (s a).y })
  else none

/-- Modelled from the spec: `refine_move(cell)` — relocate a placed cell to
a nearby legal position reducing its displacement; implemented outside
place.cpp.  Only the moved cell changes. -/
def refine_move (ext : Ext) (i : Nat) (s : S) : Option S :=
  match ext.refinePos i s with
  | some p => some (upd s i { s i with x := p.1, y := p.2 })
  | none => none

/-- Modelled from the spec: `erase_pixel(cell)` — `release(cell)`: erase a
committed cell's footprint from the grid and reset its placed state;
implemented outside place.cpp. -/
def erase_pixel (s : S) (i : Nat) : S :=
  upd s i { s i with is_placed := false }

/-- Displacement `disp(cell)`: Manhattan distance between the committed position and the
original target (declared outside place.cpp; modelled from the spec's
`displacement(cell)` contract). -/
def disp (cell : Cell) : Int :=
  |cell.init_x - cell.x| + |cell.init_y - cell.y|

/-- Observable events: the placement / refinement / swap attempts a pass
makes, with the attempted coordinates (where the call passes any) and the
outcome. -/
inductive PlaceEv where
  | mapMoveEv (i : Nat) (ok : Bool)
  | mapMoveXYEv (i : Nat) (x y : Int) (ok : Bool)
  | shiftMoveEv (i : Nat)
  | refineEv (i : Nat) (ok : Bool)
  | swapEv (a b : Nat) (ok : Bool)
deriving DecidableEq, Repr

/-- A state plus the trace of attempts made while producing it. -/
structure PlaceOut where
  state : S
  trace : List PlaceEv

/-- The region-scanning loops of `non_group_cell_pre_placement`
(place.cpp:116-124): for every group, for every region of that group, if
the cell overlaps the region set `inGroup = true; target = &rect`.  The
loops never break, so `target` ends as the last overlapping region in
iteration order (`none` when no region overlaps, in which case the `target`
pointer stays uninitialized and is never read). -/
def non_group_pre_target (ext : Ext) (groups : List Group) (cell : Cell) :
    Option AdsRect :=
  groups.foldl
    (fun target group =>
      group.regions.foldl
        (fun target rect =>
          if ext.checkOverlap cell rect then some rect else target)
        target)
    none

/-- The body of the `non_group_cell_pre_placement` cell loop
(place.cpp:111-132) for one cell handle `i`. -/
def pre_place_step (ext : Ext) (groups : List Group) (s : S) (i : Nat) :
    PlaceOut :=
  let cell := s i
  if !cell.inGroup && !cell.is_placed then
    match non_group_pre_target ext groups cell with
    | some target =>
      let coord := ext.nearestCoordToRectBoundary cell target
      match map_moveXY ext i coord.1 coord.2 s with
      | some s2 =>
        { state := upd s2 i { s2 i with hold := true },
          trace := [.mapMoveXYEv i coord.1 coord.2 true] }
      | none =>
        { state := s, trace := [.mapMoveXYEv i coord.1 coord.2 false] }
    | none => { state := s, trace := [] }
  else { state := s, trace := [] }

/-- Function `Opendp::non_group_cell_pre_placement` (place.cpp:110-133). -/
def non_group_cell_pre_placement (ext : Ext) (groups : List Group)
    (cells_ : List Nat) (s : S) : PlaceOut :=
  cells_.foldl
    (fun acc i =>
      let r := pre_place_step ext groups acc.state i
      { state := r.state, trace := acc.trace ++ r.trace })
    { state := s, trace := [] }

/-- The multi-deck loop of `non_group_cell_placement` (place.cpp:171-177):
`if(!map_move(cell)) shift_move(cell)` for every multi-row cell of the
sorted list. -/
def non_group_multi_loop (ext : Ext) : List Nat → S → PlaceOut
  | [], s => { state := s, trace := [] }
  | i :: rest, s =>
    if (s i).isMulti then
      match map_move ext i s with
      | some s2 =>
        let r := non_group_multi_loop ext rest s2
        { state := r.state, trace := .mapMoveEv i true :: r.trace }
      | none =>
        let s2 := shift_move ext i s
        let r := non_group_multi_loop ext rest s2
        { state := r.state,
          trace := .mapMoveEv i false :: .shiftMoveEv i :: r.trace }
    else non_group_multi_loop ext rest s

/-- The single-deck loop of `non_group_cell_placement` (place.cpp:178-185):
same fallback, for every single-row cell of the sorted list. -/
def non_group_single_loop (ext : Ext) : List Nat → S → PlaceOut
  | [], s => { state := s, trace := [] }
  | i :: rest, s =>
    if !(s i).isMulti then
      match map_move ext i s with
      | some s2 =>
        let r := non_group_single_loop ext rest s2
        { state := r.state, trace := .mapMoveEv i true :: r.trace }
      | none =>
        let s2 := shift_move ext i s
        let r := non_group_single_loop ext rest s2
        { state := r.state,
          trace := .mapMoveEv i false :: .shiftMoveEv i :: r.trace }
    else non_group_single_loop ext rest s

/-- Function `Opendp::non_group_cell_placement` (place.cpp:161-186): collect the
movable, ungrouped, unplaced cells, sort them with `sortUpOrder`, then run
the multi-deck loop and after it the single-deck loop. -/
def non_group_cell_placement (ext : Ext) (cells_ : List Nat) (s : S) :
    PlaceOut :=
  let cell_list :=
    cells_.filter fun i => !((s i).isFixed || (s i).inGroup || (s i).is_placed)
  let sorted := sortWith (fun i j => !sortUpOrder (s j) (s i)) cell_list
  let m := non_group_multi_loop ext sorted s
  let r := non_group_single_loop ext sorted m.state
  { state := r.state, trace := m.trace ++ r.trace }

/-- Result of one group's greedy passes (place.cpp:190-234): the state
after the passes, the `multi_pass` and `single_pass` flags, and the trace
of attempts. -/
structure GreedyOut where
  state : S
  multi_ok : Bool
  single_ok : Bool
  trace : List PlaceEv

/-- The multi-deck pass of `group_cell_placement` (place.cpp:201-214): for
each cell of the sorted list still movable and unplaced, if multi-row then
`multi_pass = map_move(cell)`; on failure the loop breaks immediately —
there is no shift fallback here. -/
def group_multi_pass (ext : Ext) : List Nat → S → S × Bool × List PlaceEv
  | [], s => (s, true, [])
  | i :: rest, s =>
    let cell := s i
    if !cell.isFixed && !cell.is_placed then
      if cell.isMulti then
        match map_move ext i s with
        | some s2 =>
          let r := group_multi_pass ext rest s2
          (r.1, r.2.1, .mapMoveEv i true :: r.2.2)
        | none => (s, false, [.mapMoveEv i false])
      else group_multi_pass ext rest s
    else group_multi_pass ext rest s

/-- The single-deck pass of `group_cell_placement` (place.cpp:220-233):
same shape, for single-row cells, setting `single_pass`. -/
def group_single_pass (ext : Ext) : List Nat → S → S × Bool × List PlaceEv
  | [], s => (s, true, [])
  | i :: rest, s =>
    let cell := s i
    if !cell.isFixed && !cell.is_placed then
      if !cell.isMulti then
        match map_move ext i s with
        | some s2 =>
          let r := group_single_pass ext rest s2
          (r.1, r.2.1, .mapMoveEv i true :: r.2.2)
        | none => (s, false, [.mapMoveEv i false])
      else group_single_pass ext rest s
    else group_single_pass ext rest s

/-- One group's greedy placement (place.cpp:190-234): filter and sort the
movable, unplaced siblings, run the multi-deck pass, then — only if it
succeeded — the single-deck pass (`single_pass` stays `true` otherwise). -/
def group_greedy (ext : Ext) (g : Group) (s : S) : GreedyOut :=
  let cell_list :=
    g.siblings.filter fun i => !(s i).isFixed && !(s i).is_placed
  let sorted := sortWith (fun i j => !sortUpOrder (s j) (s i)) cell_list
  let m := group_multi_pass ext sorted s
  if m.2.1 then
    let sg := group_single_pass ext sorted m.1
    { state := sg.1, multi_ok := true, single_ok := sg.2.1,
      trace := m.2.2 ++ sg.2.2 }
  else
    { state := m.1, multi_ok := false, single_ok := true, trace := m.2.2 }

/-- The rollback loop of `group_cell_placement` (place.cpp:237-241): erase
every sibling of the failed group from the grid. -/
def eraseSiblings (sibs : List Nat) (s : S) : S :=
  sibs.foldl erase_pixel s

/-- C++ truncating integer division, for `(rect->xMin() + rect->xMax()) / 2`. -/
def cppDiv (a b : Int) : Int := Int.tdiv a b

/-- The computation inside the four-argument `Opendp::rectDist` overload
(place.cpp:254-273): the quadrant corner of `rect` nearest to the cell's
original target — right/top when the target exceeds the midpoint on that
axis, left/bottom otherwise.  In the source the two target parameters are
passed **by value** (despite the `// Return values.` comment), so this
result never reaches a caller of that overload. -/
def rectDistTarget (cell : Cell) (rect : AdsRect) : Int × Int :=
  let x_tar := if cell.init_x > cppDiv (rect.xMin + rect.xMax) 2
               then rect.xMax else rect.xMin
  let y_tar := if cell.init_y > cppDiv (rect.yMin + rect.yMax) 2
               then rect.yMax else rect.yMin
  (x_tar, y_tar)

/-- The two-argument `Opendp::rectDist` overload (place.cpp:275-285),
modelled with its intended semantics: Manhattan distance from the original
target to that quadrant corner.  In the source this overload passes its
locals by value to the four-argument overload and then reads them back
still uninitialized, so the distance it actually returns — and hence the
sort order of both brick placers — is indeterminate; the theorems below
never depend on that sort order. -/
def rectDist (cell : Cell) (rect : AdsRect) : Int :=
  let t := rectDistTarget cell rect
  |cell.init_x - t.1| + |cell.init_y - t.2|

/-- The loop body of `Opendp::brick_placement_1` (place.cpp:297-306): the
locals `x_tar, y_tar` are declared, `rectDist(cell, boundary)` (the
distance overload) is called with its result discarded, and
`map_move(cell, x_tar, y_tar)` is invoked on the still-uninitialized
locals — there is no `hold` check.  `junk i` supplies the indeterminate
values the two locals hold at the iteration processing cell `i`. -/
def brick1_step (ext : Ext) (junk : Nat → Int × Int) (acc : PlaceOut)
    (i : Nat) : PlaceOut :=
  let p := junk i
  match map_moveXY ext i p.1 p.2 acc.state with
  | some s2 =>
    { state := s2, trace := acc.trace ++ [.mapMoveXYEv i p.1 p.2 true] }
  | none =>
    { state := acc.state,
      trace := acc.trace ++ [.mapMoveXYEv i p.1 p.2 false] }

/-- The sort-then-fold of `Opendp::brick_placement_1`: siblings in
increasing `rectDist`-from-boundary order, each processed by
`brick1_step`. -/
def brick_placement_1 (ext : Ext) (junk : Nat → Int × Int) (g : Group)
    (s : S) : PlaceOut :=
  let boundary := g.boundary
  let sort_by_dist :=
    sortWith (fun i j => !decide (rectDist (s j) boundary < rectDist (s i) boundary))
      g.siblings
  sort_by_dist.foldl (brick1_step ext junk) { state := s, trace := [] }

/-- The loop body of `Opendp::brick_placement_2` (place.cpp:318-330): for
a cell that is not `hold`, the locals `x_tar, y_tar` are passed by value to
the four-argument `rectDist` (which therefore cannot set them) and
`map_move(cell, x_tar, y_tar)` runs on the uninitialized locals, supplied
by `junk`; a held cell is skipped entirely. -/
def brick2_step (ext : Ext) (junk : Nat → Int × Int) (acc : PlaceOut)
    (i : Nat) : PlaceOut :=
  if !(acc.state i).hold then
    let p := junk i
    match map_moveXY ext i p.1 p.2 acc.state with
    | some s2 =>
      { state := s2, trace := acc.trace ++ [.mapMoveXYEv i p.1 p.2 true] }
    | none =>
      { state := acc.state,
        trace := acc.trace ++ [.mapMoveXYEv i p.1 p.2 false] }
  else acc

/-- Function `Opendp::brick_placement_2` (place.cpp:310-331): siblings in increasing
`rectDist`-from-own-region order, each processed by `brick2_step`. -/
def brick_placement_2 (ext : Ext) (junk : Nat → Int × Int) (g : Group)
    (s : S) : PlaceOut :=
  let sort_by_dist :=
    sortWith (fun i j => !decide (rectDist (s j) (s j).region < rectDist (s i) (s i).region))
      g.siblings
  sort_by_dist.foldl (brick2_step ext junk) { state := s, trace := [] }

/-- Number of iterations of `for(int i = 0; i < bound; i++)` where `bound`
is the C++ `double` product `n * pct` with `pct = pct.num / pct.den`
exactly representable: the number of non-negative integers below
`n * pct`, i.e. `max 0 ⌈n * pct.num / pct.den⌉`, written out on the
numerator and (positive) denominator so that it evaluates by kernel
reduction (`⌈a / d⌉ = -((-a) ediv d)` for `d > 0`). -/
def iterBound (n : Nat) (pct : ℚ) : Nat :=
  (-(-(Int.ofNat n * pct.num) / (pct.den : Int))).toNat

/-- The strict comparison `b < a` on exactly represented `double` values
(`a > b` in the source), written on numerators and denominators so that it
evaluates by kernel reduction; `ratGT_iff` below identifies it with `<` on
`ℚ`. -/
def ratGT (a b : ℚ) : Bool :=
  decide (b.num * (a.den : Int) < a.num * (b.den : Int))

/-- The erased state handed to the brick fallback of a failed group: every
sibling released from the grid (place.cpp:237-241). -/
def brick_input_state (ext : Ext) (g : Group) (s : S) : S :=
  eraseSiblings g.siblings (group_greedy ext g s).state

/-- The per-group body of `Opendp::group_cell_placement` (place.cpp:189-251):
greedy passes; if either failed, erase all the group's siblings and hand the
group to `brick_placement_1` when `group.util > 0.95`, else to
`brick_placement_2`. -/
def group_cell_placement_one (ext : Ext) (junk : Nat → Int × Int)
    (g : Group) (s : S) : PlaceOut :=
  let r := group_greedy ext g s
  if !r.single_ok || !r.multi_ok then
    let s3 := eraseSiblings g.siblings r.state
    let br :=
      if ratGT g.util (mkRat 95 100) then brick_placement_1 ext junk g s3
      else brick_placement_2 ext junk g s3
    { state := br.state, trace := r.trace ++ br.trace }
  else { state := r.state, trace := r.trace }

/-- The comparator of the `group_refine` sort (place.cpp:337-339).  It
compares `disp(cell1)` against **`disp(cell1)`** — the same cell — so it is
constantly false. -/
def group_refine_cmp (cell1 cell2 : Cell) : Bool :=
  decide (disp cell1 > disp cell1)

/-- The comparator of the `non_group_refine` sort (place.cpp:391-394):
descending displacement. -/
def non_group_refine_cmp (cell1 cell2 : Cell) : Bool :=
  decide (disp cell1 > disp cell2)

/-- Result of a refiner or annealer: the success count the orchestrator
consumes, plus the state, trial tally, final pseudorandom state, and
trace. -/
structure RefineOut where
  count : Nat
  state : S
  trace : List PlaceEv

/-- The attempt loop shared by `group_refine` (place.cpp:341-347) and
`non_group_refine` (place.cpp:396-402): walk the selected prefix; for each
cell that is not `hold`, attempt `refine_move` and count successes. -/
def refine_loop (ext : Ext) : List Nat → Nat → S → RefineOut
  | [], count, s => { count := count, state := s, trace := [] }
  | i :: rest, count, s =>
    if !(s i).hold then
      match refine_move ext i s with
      | some s2 =>
        let r := refine_loop ext rest (count + 1) s2
        { r with trace := .refineEv i true :: r.trace }
      | none =>
        let r := refine_loop ext rest count s
        { r with trace := .refineEv i false :: r.trace }
    else refine_loop ext rest count s

/-- Function `Opendp::group_refine` (place.cpp:333-350): copy the sibling list, sort
it with the (constantly false) comparator — `std::sort` then owes no
particular order; this model keeps the original order — and run the
attempt loop over the first `size * group_refine_percent_` entries. -/
def group_refine (ext : Ext) (g : Group) (s : S) : RefineOut :=
  let sort_by_disp :=
    sortWith (fun i j => !group_refine_cmp (s j) (s i)) g.siblings
  refine_loop ext
    (sort_by_disp.take (iterBound sort_by_disp.length ext.group_refine_percent_))
    0 s

/-- Function `Opendp::non_group_refine` (place.cpp:383-405): collect the movable,
unheld, ungrouped cells, sort descending by displacement, and run the
attempt loop over the first `size * non_group_refine_percent_` entries. -/
def non_group_refine (ext : Ext) (cells_ : List Nat) (s : S) : RefineOut :=
  let sort_by_disp :=
    sortWith (fun i j => !non_group_refine_cmp (s j) (s i))
      (cells_.filter fun i => !((s i).isFixed || (s i).hold || (s i).inGroup))
  refine_loop ext
    (sort_by_disp.take (iterBound sort_by_disp.length ext.non_group_refine_percent_))
    0 s

/-- Result of an annealer: success count, number of trials executed, state,
final pseudorandom state, trace. -/
structure AnnealOut where
  count : Nat
  iters : Nat
  state : S
  rng : Nat
  trace : List PlaceEv

/-- The trial loop shared by `group_annealing` (place.cpp:357-364) and
`non_group_annealing` (place.cpp:372-378): each trial draws two cells from
`pool` with two `rand()` calls; if neither is `hold`, attempt `swap_cell`
and count success. -/
def anneal_loop (ext : Ext) (pool : List Nat) :
    Nat → Nat → S → Nat → AnnealOut
  | 0, count, s, rng =>
    { count := count, iters := 0, state := s, rng := rng, trace := [] }
  | fuel + 1, count, s, rng =>
    let r1 := ext.randNext rng
    let cellA := pool.getD (r1.1 % pool.length) 0
    let r2 := ext.randNext r1.2
    let cellB := pool.getD (r2.1 % pool.length) 0
    if !(s cellA).hold && !(s cellB).hold then
      match swap_cell ext cellA cellB s with
      | some s2 =>
        let r := anneal_loop ext pool fuel (count + 1) s2 r2.2
        { r with iters := r.iters + 1,
                 trace := .swapEv cellA cellB true :: r.trace }
      | none =>
        let r := anneal_loop ext pool fuel count s r2.2
        { r with iters := r.iters + 1,
                 trace := .swapEv cellA cellB false :: r.trace }
    else
      let r := anneal_loop ext pool fuel count s r2.2
      { r with iters := r.iters + 1, trace := r.trace }

/-- Function `Opendp::group_annealing` (place.cpp:352-367): `srand(777)` discards
the incoming pseudorandom state and restarts it at the constant 777, then
`1000 * group->siblings.size()` trials run. -/
def group_annealing (ext : Ext) (g : Group) (s : S) (rng : Nat) : AnnealOut :=
  anneal_loop ext g.siblings (1000 * g.siblings.length) 0 s 777

/-- Function `Opendp::non_group_annealing` (place.cpp:369-381): `srand(777)`, then
`100 * cells_.size()` trials over the whole cell population. -/
def non_group_annealing (ext : Ext) (cells_ : List Nat) (s : S) (rng : Nat) :
    AnnealOut :=
  anneal_loop ext cells_ (100 * cells_.length) 0 s 777

/-- The per-group refine/anneal round loop of `simplePlacement`
(place.cpp:97-103): up to `fuel` (the source runs 3) rounds of
`group_refine` then `group_annealing`; a round whose refine count is below
10 or whose anneal count is below 100 is the last one.  Returns the
`(count_a, count_b)` pair of every executed round, the state, and the
pseudorandom state. -/
def group_rounds (ext : Ext) (g : Group) :
    Nat → S → Nat → List (Nat × Nat) × S × Nat
  | 0, s, rng => ([], s, rng)
  | fuel + 1, s, rng =>
    let ra := group_refine ext g s
    let rb := group_annealing ext g ra.state rng
    if ra.count < 10 || rb.count < 100 then
      ([(ra.count, rb.count)], rb.state, rb.rng)
    else
      let rest := group_rounds ext g fuel rb.state rb.rng
      ((ra.count, rb.count) :: rest.1, rest.2.1, rest.2.2)

/-- All regions of all groups, flattened in the iteration order of the
nested loops of `non_group_cell_pre_placement`. -/
def regionsOf : List Group → List AdsRect
  | [] => []
  | g :: rest => g.regions ++ regionsOf rest

/-- Whether an attempt event touches cell `i`. -/
def involves (i : Nat) : PlaceEv → Bool
  | .mapMoveEv j _ => decide (j = i)
  | .mapMoveXYEv j _ _ _ => decide (j = i)
  | .shiftMoveEv j => decide (j = i)
  | .refineEv j _ => decide (j = i)
  | .swapEv a b _ => decide (a = i) || decide (b = i)

/-! Concrete instances used by the witnesses and counterexamples. -/

/-- The degenerate rectangle. -/
def rect0 : AdsRect := ⟨0, 0, 0, 0⟩

/-- A default cell: movable, unplaced, unheld, ungrouped, single-row, at
the origin. -/
def cell0 : Cell :=
  { id := 0, area := 0, dense_factor := 0, isMulti := false, isFixed := false,
    is_placed := false, hold := false, inGroup := false, x := 0, y := 0,
    init_x := 0, init_y := 0, region := rect0 }

/-- A benign oracle environment: every geometric test passes, every grid
operation succeeds (direct placement at the requested spot, refinement to
the origin), both refine fractions are 1. -/
def ext0 : Ext :=
  { checkOverlap := fun _ _ => true,
    checkInside := fun _ _ => true,
    distForRect := fun _ _ => 0,
    nearestCoordToRectBoundary := fun _ r => (r.xMin, r.yMin),
    mapMovePos := fun _ _ => some (0, 0),
    mapMoveXYPos := fun _ x y _ => some (x, y),
    shiftMoveRes := fun _ s => s,
    refinePos := fun _ _ => some (0, 0),
    swapLegal := fun _ _ _ => true,
    randNext := fun n => (n, n + 1),
    group_refine_percent_ := 1,
    non_group_refine_percent_ := 1 }

/-- An adversarial oracle environment: every grid operation fails. -/
def extFail : Ext :=
  { ext0 with
    mapMovePos := fun _ _ => none,
    mapMoveXYPos := fun _ _ _ _ => none,
    refinePos := fun _ _ => none,
    swapLegal := fun _ _ _ => false }

/-- Indeterminate-locals environment that happens to hold `(0, 0)`. -/
def junk0 : Nat → Int × Int := fun _ => (0, 0)

/-- The three cells of the ordering-law example: areas [10, 10, 5],
dense_factors [1, 2, 1], ids [5, 3, 9]. -/
def cellA5 : Cell := { cell0 with id := 5, area := 10, dense_factor := 1 }

/-- Second example cell: area 10, dense_factor 2, id 3. -/
def cellA3 : Cell := { cell0 with id := 3, area := 10, dense_factor := 2 }

/-- Third example cell: area 5, dense_factor 1, id 9. -/
def cellA9 : Cell := { cell0 with id := 9, area := 5, dense_factor := 1 }

/-- Cell store for the ordering-law example. -/
def sEx3 : S := fun i =>
  if i = 5 then cellA5 else if i = 3 then cellA3 else if i = 9 then cellA9
  else cell0

/-- A group with one movable multi-row sibling (handle 0). -/
def gW1 : Group := { siblings := [0], regions := [], boundary := rect0, util := 0 }

/-- A store where every handle is a movable multi-row cell. -/
def sW1 : S := fun _ => { cell0 with isMulti := true }

/-- A cell with displacement 7 (committed at x = 7, target x = 0). -/
def cellD7 : Cell := { cell0 with id := 2, x := 7 }

/-- A cell with displacement 0. -/
def cellD0 : Cell := { cell0 with id := 1 }

/-- Store for the refine-comparator example: handle 2 is the displaced
cell, every other handle the undisplaced one. -/
def sC5 : S := fun i => if i = 2 then cellD7 else cellD0

/-- Group for the refine-comparator example: sibling order [1, 2], so the
most-displaced cell (handle 2) comes last. -/
def gC5 : Group := { siblings := [1, 2], regions := [], boundary := rect0, util := 0 }

/-- Environment refining the top half of the (buggy) ordering. -/
def extC5 : Ext := { ext0 with group_refine_percent_ := mkRat 1 2 }

/-- Bounding rectangle of the brick-1 example: x in [0, 8], y in [0, 9]. -/
def rectC6 : AdsRect := ⟨0, 8, 0, 9⟩

/-- Cell of the brick-1 example: original target (7, 1), whose nearest
quadrant corner of `rectC6` is (xMax, yMin) = (8, 0). -/
def cellC6 : Cell := { cell0 with init_x := 7, init_y := 1 }

/-- Group of the brick-1 example (utilization 1 > 0.95). -/
def gC6 : Group := { siblings := [0], regions := [rectC6], boundary := rectC6, util := 1 }

/-- Store of the brick-1 example. -/
def sC6 : S := fun _ => cellC6

/-- Indeterminate-locals environment holding `(-1, -1)`. -/
def junkC6 : Nat → Int × Int := fun _ => (-1, -1)

/-- First region of the pre-placement snap example: x, y in [0, 10]. -/
def rA : AdsRect := ⟨0, 10, 0, 10⟩

/-- Second region of the pre-placement snap example: x, y in [20, 30]. -/
def rB : AdsRect := ⟨20, 30, 20, 30⟩

/-- Group owning region `rA`. -/
def gC7a : Group := { siblings := [], regions := [rA], boundary := rA, util := 0 }

/-- Group owning region `rB`. -/
def gC7b : Group := { siblings := [], regions := [rB], boundary := rB, util := 0 }

/-- Store of the snap example: every handle is the default ungrouped,
unplaced cell. -/
def sC7 : S := fun _ => cell0

/-- A group with no siblings. -/
def gEmpty : Group := { siblings := [], regions := [], boundary := rect0, util := 0 }

/-- A store of default cells. -/
def sZero : S := fun _ => cell0

/-- A store where every cell is held. -/
def sHold : S := fun _ => { cell0 with hold := true }

/-!  Theorems.  First the generic lemmas about the embedded operations,
then one theorem per claim (with its witness or counterexample). -/

theorem mem_insertLe {α : Type} (le : α → α → Bool) (a b : α) :
    ∀ l : List α, b ∈ insertLe le a l ↔ b = a ∨ b ∈ l := by
  intro l
  induction l with
  | nil => simp [insertLe]
  | cons c l ih =>
    by_cases h : le a c = true <;> simp [insertLe, h, ih] <;> tauto

theorem mem_sortWith {α : Type} (le : α → α → Bool) (b : α) :
    ∀ l : List α, b ∈ sortWith le l ↔ b ∈ l := by
  intro l
  induction l with
  | nil => simp [sortWith]
  | cons a l ih => simp [sortWith, mem_insertLe, ih]

theorem sortUpOrder_irrefl (c : Cell) : sortUpOrder c c = false := by
  simp [sortUpOrder]

theorem sortUpOrder_asymm (a b : Cell) (h : sortUpOrder a b = true) :
    sortUpOrder b a = false := by
  simp only [sortUpOrder] at h ⊢
  split_ifs at h ⊢ <;> simp_all <;> omega

theorem sortUpOrder_trans (a b c : Cell) (hab : sortUpOrder a b = true)
    (hbc : sortUpOrder b c = true) : sortUpOrder a c = true := by
  simp only [sortUpOrder] at hab hbc ⊢
  split_ifs at hab hbc ⊢ <;> simp_all <;> omega

theorem sortUpOrder_total (a b : Cell) (h : a.id ≠ b.id) :
    sortUpOrder a b = true ∨ sortUpOrder b a = true := by
  simp only [sortUpOrder]
  split_ifs <;> simp_all <;> omega

theorem ratGT_iff (a b : ℚ) : ratGT a b = true ↔ b < a := by
  rw [Rat.lt_def]
  simp [ratGT]

theorem eraseSiblings_apply (sibs : List Nat) : ∀ (s : S) (j : Nat),
    eraseSiblings sibs s j =
      if j ∈ sibs then { s j with is_placed := false } else s j := by
  induction sibs with
  | nil => intro s j; simp [eraseSiblings]
  | cons i rest ih =>
    intro s j
    have hstep : eraseSiblings (i :: rest) s = eraseSiblings rest (erase_pixel s i) := rfl
    rw [hstep, ih]
    by_cases hji : j = i
    · subst hji
      by_cases hj : j ∈ rest <;> simp [hj, erase_pixel, upd]
    · by_cases hj : j ∈ rest <;> simp [hj, hji, erase_pixel, upd]

/-- C1 (group rollback atomicity): if a group's greedy pass fails (the
multi-row or the single-row sub-pass reports failure), then in the state
the brick fallback placer receives, every sibling of the group has been
evicted (`erase_pixel` run on it, `is_placed` reset to false); moreover
`group_cell_placement` really does hand the brick placer exactly that
erased state, so no partially committed sibling remains standing when the
fallback begins. -/
theorem group_rollback_atomicity (ext : Ext) (junk : Nat → Int × Int)
    (g : Group) (s : S)
    (hfail : (group_greedy ext g s).multi_ok = false ∨
             (group_greedy ext g s).single_ok = false) :
    (∀ i ∈ g.siblings, ((brick_input_state ext g s) i).is_placed = false) ∧
    (group_cell_placement_one ext junk g s).state =
      (if ratGT g.util (mkRat 95 100) then
        brick_placement_1 ext junk g (brick_input_state ext g s)
       else
        brick_placement_2 ext junk g (brick_input_state ext g s)).state := by
  have hcond : (!(group_greedy ext g s).single_ok ||
      !(group_greedy ext g s).multi_ok) = true := by
    rcases hfail with h | h <;> simp [h]
  constructor
  · intro i hi
    simp [brick_input_state, eraseSiblings_apply, hi]
  · simp only [group_cell_placement_one, hcond, if_true, brick_input_state]

/-- Witness for C1: a concrete group whose only (multi-row) sibling fails
direct placement; after the rollback the sibling is unplaced in the state
the brick placer starts from. -/
theorem group_rollback_atomicity_witness :
    ((brick_input_state extFail gW1 sW1) 0).is_placed = false :=
  (group_rollback_atomicity extFail junk0 gW1 sW1 (Or.inl (by decide))).1
    0 (by decide)

theorem group_annealing_rng (ext : Ext) (g : Group) (s : S) (rng rng' : Nat) :
    group_annealing ext g s rng = group_annealing ext g s rng' := rfl

theorem getLast?_cons_of_ne_nil {α : Type} (a : α) {l : List α} (h : l ≠ []) :
    (a :: l).getLast? = l.getLast? := by
  cases l with
  | nil => exact absurd rfl h
  | cons b l => exact List.getLast?_cons_cons

theorem group_rounds_length_le (ext : Ext) (g : Group) :
    ∀ (fuel : Nat) (s : S) (rng : Nat),
      (group_rounds ext g fuel s rng).1.length ≤ fuel := by
  intro fuel
  induction fuel with
  | zero => intro s rng; simp [group_rounds]
  | succ fuel ih =>
    intro s rng
    simp only [group_rounds]
    split
    · simp
    · simpa using ih _ _

theorem group_rounds_ne_nil (ext : Ext) (g : Group) (fuel : Nat) (s : S)
    (rng : Nat) (h : fuel ≠ 0) : (group_rounds ext g fuel s rng).1 ≠ [] := by
  cases fuel with
  | zero => exact absurd rfl h
  | succ fuel =>
    simp only [group_rounds]
    split <;> simp

theorem group_rounds_mid (ext : Ext) (g : Group) :
    ∀ (fuel : Nat) (s : S) (rng k : Nat),
      k + 1 < (group_rounds ext g fuel s rng).1.length →
      10 ≤ ((group_rounds ext g fuel s rng).1.getD k (0, 0)).1 ∧
      100 ≤ ((group_rounds ext g fuel s rng).1.getD k (0, 0)).2 := by
  intro fuel
  induction fuel with
  | zero => intro s rng k hk; simp [group_rounds] at hk
  | succ fuel ih =>
    intro s rng k hk
    simp only [group_rounds] at hk ⊢
    by_cases hcond : (decide ((group_refine ext g s).count < 10) ||
        decide ((group_annealing ext g (group_refine ext g s).state rng).count < 100)) = true
    · rw [if_pos hcond] at hk
      exact absurd hk (by simp)
    · rw [if_neg hcond] at hk ⊢
      simp only [Bool.or_eq_true, decide_eq_true_eq] at hcond
      push_neg at hcond
      cases k with
      | zero =>
        simp only [List.getD_cons_zero]
        refine ⟨?_, ?_⟩
        · show 10 ≤ (group_refine ext g s).count
          omega
        · show 100 ≤ (group_annealing ext g (group_refine ext g s).state rng).count
          omega
      | succ k =>
        simp only [List.length_cons] at hk
        simp only [List.getD_cons_succ]
        exact ih _ _ k (by omega)

theorem group_rounds_stop (ext : Ext) (g : Group) :
    ∀ (fuel : Nat) (s : S) (rng : Nat),
      (group_rounds ext g fuel s rng).1.length < fuel →
      ∃ p, (group_rounds ext g fuel s rng).1.getLast? = some p ∧
        (p.1 < 10 ∨ p.2 < 100) := by
  intro fuel
  induction fuel with
  | zero => intro s rng h; omega
  | succ fuel ih =>
    intro s rng h
    simp only [group_rounds] at h ⊢
    by_cases hcond : (decide ((group_refine ext g s).count < 10) ||
        decide ((group_annealing ext g (group_refine ext g s).state rng).count < 100)) = true
    · rw [if_pos hcond] at h ⊢
      rw [Bool.or_eq_true] at hcond
      simp only [decide_eq_true_eq] at hcond
      exact ⟨_, rfl, hcond⟩
    · rw [if_neg hcond] at h ⊢
      simp only [List.length_cons] at h
      have hlt : (group_rounds ext g fuel
          (group_annealing ext g (group_refine ext g s).state rng).state
          (group_annealing ext g (group_refine ext g s).state rng).rng).1.length < fuel := by
        omega
      obtain ⟨p, hp, htrip⟩ := ih _ _ hlt
      refine ⟨p, ?_, htrip⟩
      rw [getLast?_cons_of_ne_nil]
      · exact hp
      · intro hnil
        rw [hnil] at hp
        simp at hp

/-- C8 (round cutoff): for every group the orchestrator's rounds loop
(place.cpp:98-102, embedded as `group_rounds` with fuel 3) executes at
least one and at most 3 refine/anneal rounds; in every round before the
last the refine count was at least 10 and the anneal count at least 100
(neither threshold tripped); and whenever fewer than 3 rounds ran, the
last executed round tripped one of the thresholds (refine < 10 or
anneal < 100).  Each recorded round pair is produced by running both the
refine and the anneal of that round before the check. -/
theorem round_cutoff (ext : Ext) (g : Group) (s : S) (rng : Nat) :
    ((group_rounds ext g 3 s rng).1 ≠ [] ∧
      (group_rounds ext g 3 s rng).1.length ≤ 3) ∧
    (∀ k, k + 1 < (group_rounds ext g 3 s rng).1.length →
      10 ≤ ((group_rounds ext g 3 s rng).1.getD k (0, 0)).1 ∧
      100 ≤ ((group_rounds ext g 3 s rng).1.getD k (0, 0)).2) ∧
    ((group_rounds ext g 3 s rng).1.length < 3 →
      ∃ p, (group_rounds ext g 3 s rng).1.getLast? = some p ∧
        (p.1 < 10 ∨ p.2 < 100)) :=
  ⟨⟨group_rounds_ne_nil ext g 3 s rng (by omega),
    group_rounds_length_le ext g 3 s rng⟩,
   fun k hk => group_rounds_mid ext g 3 s rng k hk,
   fun h => group_rounds_stop ext g 3 s rng h⟩

/-- Witness for C8: a group with no siblings trips both thresholds in its
first round (0 refinements, 0 swaps), so exactly one round runs and it
tripped the cutoff. -/
theorem round_cutoff_witness :
    ∃ p, ((group_rounds ext0 gEmpty 3 sZero 0).1).getLast? = some p ∧
      (p.1 < 10 ∨ p.2 < 100) :=
  (round_cutoff ext0 gEmpty sZero 0).2.2 (by decide)

theorem refine_loop_hold (ext : Ext) (i : Nat) :
    ∀ (l : List Nat) (count : Nat) (s : S), (s i).hold = true →
      (refine_loop ext l count s).state i = s i ∧
      ∀ ev ∈ (refine_loop ext l count s).trace, involves i ev = false := by
  intro l
  induction l with
  | nil => intro count s hh; exact ⟨rfl, by intro ev hev; simp [refine_loop] at hev⟩
  | cons c rest ih =>
    intro count s hh
    by_cases hc : (s c).hold = true
    · have hstep : refine_loop ext (c :: rest) count s = refine_loop ext rest count s := by
        simp [refine_loop, hc]
      rw [hstep]
      exact ih count s hh
    · have hci : c ≠ i := fun h => hc (h ▸ hh)
      have hcf : (s c).hold = false := by
        cases hcc : (s c).hold
        · rfl
        · exact absurd hcc hc
      simp only [refine_loop, hcf, Bool.not_false, if_true]
      cases hm : ext.refinePos c s with
      | none =>
        simp only [refine_move, hm]
        obtain ⟨h1, h2⟩ := ih count s hh
        refine ⟨h1, ?_⟩
        intro ev hev
        rcases List.mem_cons.mp hev with hev | hev
        · subst hev; simp [involves, hci]
        · exact h2 ev hev
      | some p =>
        simp only [refine_move, hm]
        have hh2 : ((upd s c { s c with x := p.1, y := p.2 }) i).hold = true := by
          simpa [upd, hci.symm] using hh
        obtain ⟨h1, h2⟩ := ih (count + 1) (upd s c { s c with x := p.1, y := p.2 }) hh2
        refine ⟨?_, ?_⟩
        · rw [h1]; simp [upd, hci.symm]
        · intro ev hev
          rcases List.mem_cons.mp hev with hev | hev
          · subst hev; simp [involves, hci]
          · exact h2 ev hev

theorem anneal_loop_hold (ext : Ext) (pool : List Nat) (i : Nat) :
    ∀ (fuel count : Nat) (s : S) (rng : Nat), (s i).hold = true →
      (anneal_loop ext pool fuel count s rng).state i = s i ∧
      ∀ ev ∈ (anneal_loop ext pool fuel count s rng).trace,
        involves i ev = false := by
  intro fuel
  induction fuel with
  | zero => intro count s rng hh; exact ⟨rfl, by intro ev hev; simp [anneal_loop] at hev⟩
  | succ fuel ih =>
    intro count s rng hh
    simp only [anneal_loop]
    generalize pool.getD ((ext.randNext rng).1 % pool.length) 0 = a
    generalize pool.getD ((ext.randNext (ext.randNext rng).2).1 % pool.length) 0 = b
    generalize (ext.randNext (ext.randNext rng).2).2 = rng3
    by_cases hg : (!(s a).hold && !(s b).hold) = true
    · rw [Bool.and_eq_true, Bool.not_eq_true', Bool.not_eq_true'] at hg
      have hai : a ≠ i := by
        intro h
        rw [h, hh] at hg
        simp at hg
      have hbi : b ≠ i := by
        intro h
        rw [h, hh] at hg
        simp at hg
      rw [if_pos (by rw [Bool.and_eq_true, Bool.not_eq_true', Bool.not_eq_true']; exact hg)]
      cases hl : ext.swapLegal a b s with
      | false =>
        simp only [swap_cell, hl, Bool.false_eq_true, if_false]
        obtain ⟨h1, h2⟩ := ih count s rng3 hh
        refine ⟨h1, ?_⟩
        intro ev hev
        rcases List.mem_cons.mp hev with hev | hev
        · subst hev; simp [involves, hai, hbi]
        · exact h2 ev hev
      | true =>
        simp only [swap_cell, hl, if_true]
        have hh2 : ((upd (upd s a { s a with x := (s b).x, y := (s b).y })
            b { s b with x := (s a).x, y := (s a).y }) i).hold = true := by
          simpa [upd, Ne.symm hai, Ne.symm hbi] using hh
        obtain ⟨h1, h2⟩ := ih (count + 1) _ rng3 hh2
        refine ⟨?_, ?_⟩
        · rw [h1]; simp [upd, Ne.symm hai, Ne.symm hbi]
        · intro ev hev
          rcases List.mem_cons.mp hev with hev | hev
          · subst hev; simp [involves, hai, hbi]
          · exact h2 ev hev
    · rw [if_neg hg]
      exact ih count s rng3 hh

/-- C9 (hold freeze): a cell whose `hold` flag is set is never the subject
of any refine or swap attempt of `group_refine`, `group_annealing`,
`non_group_refine` or `non_group_annealing` (its handle appears in no
attempt event of their traces), and consequently its committed record —
its position in particular — is unchanged by each of those calls. -/
theorem hold_freeze (ext : Ext) (g : Group) (cells_ : List Nat) (s : S)
    (rng rng2 : Nat) (i : Nat) (hh : (s i).hold = true) :
    ((group_refine ext g s).state i = s i ∧
      ∀ ev ∈ (group_refine ext g s).trace, involves i ev = false) ∧
    ((group_annealing ext g s rng).state i = s i ∧
      ∀ ev ∈ (group_annealing ext g s rng).trace, involves i ev = false) ∧
    ((non_group_refine ext cells_ s).state i = s i ∧
      ∀ ev ∈ (non_group_refine ext cells_ s).trace, involves i ev = false) ∧
    ((non_group_annealing ext cells_ s rng2).state i = s i ∧
      ∀ ev ∈ (non_group_annealing ext cells_ s rng2).trace,
        involves i ev = false) :=
  ⟨refine_loop_hold ext i _ 0 s hh,
   anneal_loop_hold ext g.siblings i _ 0 s 777 hh,
   refine_loop_hold ext i _ 0 s hh,
   anneal_loop_hold ext cells_ i _ 0 s 777 hh⟩

/-- Witness for C9: a held cell is untouched by a concrete `group_refine`
call. -/
theorem hold_freeze_witness :
    (group_refine ext0 gC5 sHold).state 0 = sHold 0 :=
  ((hold_freeze ext0 gC5 [1] sHold 0 0 0 (by decide)).1).1

theorem group_multi_pass_no_shift (ext : Ext) :
    ∀ (order : List Nat) (s : S),
      ∀ ev ∈ (group_multi_pass ext order s).2.2, ∀ j, ev ≠ .shiftMoveEv j := by
  intro order
  induction order with
  | nil => intro s ev hev; simp [group_multi_pass] at hev
  | cons i rest ih =>
    intro s ev hev j
    simp only [group_multi_pass] at hev
    by_cases hc : (!(s i).isFixed && !(s i).is_placed) = true
    · rw [if_pos hc] at hev
      by_cases hm : (s i).isMulti = true
      · rw [if_pos hm] at hev
        cases hmm : map_move ext i s with
        | some s2 =>
          rw [hmm] at hev
          rcases List.mem_cons.mp hev with hev | hev
          · subst hev; simp
          · exact ih s2 ev hev j
        | none =>
          rw [hmm] at hev
          rcases List.mem_cons.mp hev with hev | hev
          · subst hev; simp
          · simp at hev
      · rw [if_neg hm] at hev
        exact ih s ev hev j
    · rw [if_neg hc] at hev
      exact ih s ev hev j

theorem group_single_pass_no_shift (ext : Ext) :
    ∀ (order : List Nat) (s : S),
      ∀ ev ∈ (group_single_pass ext order s).2.2, ∀ j, ev ≠ .shiftMoveEv j := by
  intro order
  induction order with
  | nil => intro s ev hev; simp [group_single_pass] at hev
  | cons i rest ih =>
    intro s ev hev j
    simp only [group_single_pass] at hev
    by_cases hc : (!(s i).isFixed && !(s i).is_placed) = true
    · rw [if_pos hc] at hev
      by_cases hm : (!(s i).isMulti) = true
      · rw [if_pos hm] at hev
        cases hmm : map_move ext i s with
        | some s2 =>
          rw [hmm] at hev
          rcases List.mem_cons.mp hev with hev | hev
          · subst hev; simp
          · exact ih s2 ev hev j
        | none =>
          rw [hmm] at hev
          rcases List.mem_cons.mp hev with hev | hev
          · subst hev; simp
          · simp at hev
      · rw [if_neg hm] at hev
        exact ih s ev hev j
    · rw [if_neg hc] at hev
      exact ih s ev hev j

theorem group_multi_pass_fail_last (ext : Ext) :
    ∀ (order : List Nat) (s : S), (group_multi_pass ext order s).2.1 = false →
      ∃ j, (group_multi_pass ext order s).2.2.getLast? =
        some (.mapMoveEv j false) := by
  intro order
  induction order with
  | nil => intro s h; simp [group_multi_pass] at h
  | cons i rest ih =>
    intro s h
    simp only [group_multi_pass] at h ⊢
    by_cases hc : (!(s i).isFixed && !(s i).is_placed) = true
    · rw [if_pos hc] at h ⊢
      by_cases hm : (s i).isMulti = true
      · rw [if_pos hm] at h ⊢
        cases hmm : map_move ext i s with
        | some s2 =>
          rw [hmm] at h
          simp only at h
          have h2 : (group_multi_pass ext rest s2).2.1 = false := h
          show ∃ j, (PlaceEv.mapMoveEv i true ::
            (group_multi_pass ext rest s2).2.2).getLast? =
              some (PlaceEv.mapMoveEv j false)
          obtain ⟨j, hj⟩ := ih s2 h2
          refine ⟨j, ?_⟩
          rw [getLast?_cons_of_ne_nil]
          · exact hj
          · intro hnil
            rw [hnil] at hj
            simp at hj
        | none =>
          exact ⟨i, rfl⟩
      · rw [if_neg hm] at h ⊢
        exact ih s h
    · rw [if_neg hc] at h ⊢
      exact ih s h

theorem group_single_pass_fail_last (ext : Ext) :
    ∀ (order : List Nat) (s : S), (group_single_pass ext order s).2.1 = false →
      ∃ j, (group_single_pass ext order s).2.2.getLast? =
        some (.mapMoveEv j false) := by
  intro order
  induction order with
  | nil => intro s h; simp [group_single_pass] at h
  | cons i rest ih =>
    intro s h
    simp only [group_single_pass] at h ⊢
    by_cases hc : (!(s i).isFixed && !(s i).is_placed) = true
    · rw [if_pos hc] at h ⊢
      by_cases hm : (!(s i).isMulti) = true
      · rw [if_pos hm] at h ⊢
        cases hmm : map_move ext i s with
        | some s2 =>
          rw [hmm] at h
          simp only at h
          have h2 : (group_single_pass ext rest s2).2.1 = false := h
          show ∃ j, (PlaceEv.mapMoveEv i true ::
            (group_single_pass ext rest s2).2.2).getLast? =
              some (PlaceEv.mapMoveEv j false)
          obtain ⟨j, hj⟩ := ih s2 h2
          refine ⟨j, ?_⟩
          rw [getLast?_cons_of_ne_nil]
          · exact hj
          · intro hnil
            rw [hnil] at hj
            simp at hj
        | none =>
          exact ⟨i, rfl⟩
      · rw [if_neg hm] at h ⊢
        exact ih s h
    · rw [if_neg hc] at h ⊢
      exact ih s h

/-- C4 counterexample: a group whose single multi-row sibling fails direct
placement.  The multi-row pass is declared failed (`multi_ok = false`) and
the failed direct attempt is on record, yet no shift fallback attempt for
that cell (or any cell) appears anywhere in the group's trace — contrary
to the claim that a shift fallback is attempted before the pass is
declared failed. -/
theorem group_shift_fallback_counterexample :
    (group_greedy extFail gW1 sW1).multi_ok = false ∧
    PlaceEv.mapMoveEv 0 false ∈ (group_greedy extFail gW1 sW1).trace ∧
    PlaceEv.shiftMoveEv 0 ∉ (group_greedy extFail gW1 sW1).trace ∧
    PlaceEv.shiftMoveEv 0 ∉ (group_cell_placement_one extFail junk0 gW1 sW1).trace := by
  refine ⟨by decide, by decide, by decide, by decide⟩

/-- C4 amended: in the grouped scope there is no shift fallback at all —
neither greedy sub-pass of `group_cell_placement` ever makes a
`shift_move` attempt, and a sub-pass that fails does so by aborting
immediately at a failed direct `map_move` attempt (the failed attempt is
the last event of its trace). -/
theorem group_pass_aborts_without_shift (ext : Ext) (order : List Nat)
    (s : S) :
    ((∀ ev ∈ (group_multi_pass ext order s).2.2, ∀ j, ev ≠ .shiftMoveEv j) ∧
     (∀ ev ∈ (group_single_pass ext order s).2.2, ∀ j, ev ≠ .shiftMoveEv j)) ∧
    ((group_multi_pass ext order s).2.1 = false →
      ∃ j, (group_multi_pass ext order s).2.2.getLast? =
        some (.mapMoveEv j false)) ∧
    ((group_single_pass ext order s).2.1 = false →
      ∃ j, (group_single_pass ext order s).2.2.getLast? =
        some (.mapMoveEv j false)) :=
  ⟨⟨group_multi_pass_no_shift ext order s, group_single_pass_no_shift ext order s⟩,
   group_multi_pass_fail_last ext order s, group_single_pass_fail_last ext order s⟩

/-- Witness for the amended C4: the concrete failing group aborts its
multi-row pass at the failed direct attempt. -/
theorem group_pass_aborts_without_shift_witness :
    ∃ j, (group_multi_pass extFail [0] sW1).2.2.getLast? =
      some (.mapMoveEv j false) :=
  (group_pass_aborts_without_shift extFail [0] sW1).2.1 (by decide)

theorem getLast?_cons_or {α : Type} (a : α) (l : List α) :
    (a :: l).getLast? = l.getLast?.or (some a) := by
  cases l with
  | nil => rfl
  | cons b l =>
    rw [List.getLast?_cons_cons]
    cases hbl : (b :: l).getLast? with
    | none => exact absurd hbl (by simp)
    | some z => simp

theorem getLast?_append_or {α : Type} :
    ∀ (l1 l2 : List α), (l1 ++ l2).getLast? = l2.getLast?.or l1.getLast? := by
  intro l1
  induction l1 with
  | nil => intro l2; simp
  | cons a l1 ih =>
    intro l2
    rw [List.cons_append, getLast?_cons_or, ih, getLast?_cons_or,
      Option.or_assoc]

theorem overlap_fold_or (p : AdsRect → Bool) :
    ∀ (l : List AdsRect) (t : Option AdsRect),
      l.foldl (fun acc r => if p r then some r else acc) t =
        ((l.filter p).getLast?).or t := by
  intro l
  induction l with
  | nil => intro t; simp
  | cons r l ih =>
    intro t
    rw [List.foldl_cons, ih]
    by_cases hp : p r = true
    · simp [List.filter_cons, hp, getLast?_cons_or, Option.or_assoc]
    · have hp2 : p r = false := by
        cases hpp : p r
        · rfl
        · exact absurd hpp hp
      simp [List.filter_cons, hp2]

theorem non_group_pre_target_eq (ext : Ext) (cell : Cell) :
    ∀ (groups : List Group),
      non_group_pre_target ext groups cell =
        ((regionsOf groups).filter (fun r => ext.checkOverlap cell r)).getLast? := by
  have hgen : ∀ (groups : List Group) (t : Option AdsRect),
      groups.foldl
        (fun target group =>
          group.regions.foldl
            (fun target rect =>
              if ext.checkOverlap cell rect then some rect else target)
            target)
        t =
      (((regionsOf groups).filter (fun r => ext.checkOverlap cell r)).getLast?).or t := by
    intro groups
    induction groups with
    | nil => intro t; simp [regionsOf]
    | cons g gs ih =>
      intro t
      rw [List.foldl_cons, ih, overlap_fold_or]
      show _ = (((g.regions ++ regionsOf gs).filter
        (fun r => ext.checkOverlap cell r)).getLast?).or t
      rw [List.filter_append, getLast?_append_or, Option.or_assoc]
  intro groups
  show groups.foldl _ none = _
  rw [hgen groups none, Option.or_none]

/-- C7 counterexample: a cell overlapping two regions, `rA` first and `rB`
second in group/region iteration order.  The first overlapping region is
`rA` with nearest boundary coordinate (0, 0), but the snap attempt recorded
by `pre_place_step` is at (20, 20), the boundary of the **last** overlapping
region `rB` — the claim's "first overlapping region found" fails on the
code, whose region loops never break. -/
theorem pre_place_first_overlap_counterexample :
    ext0.checkOverlap (sC7 0) rA = true ∧
    (regionsOf [gC7a, gC7b]).head? = some rA ∧
    ext0.nearestCoordToRectBoundary (sC7 0) rA = (0, 0) ∧
    (pre_place_step ext0 [gC7a, gC7b] sC7 0).trace =
      [.mapMoveXYEv 0 20 20 true] ∧
    ((20 : Int), (20 : Int)) ≠ ((0 : Int), (0 : Int)) := by
  refine ⟨by decide, by decide, by decide, by decide, by decide⟩

/-- C7 amended: for every unplaced, ungrouped cell the snap target of
`non_group_cell_pre_placement` is the nearest boundary coordinate of the
**last** overlapping region in group/region iteration order, a commit is
attempted exactly there, and `hold` is set to true exactly when that commit
succeeds; a cell overlapping no region — or one grouped or already placed —
is left untouched.  The full pass is the fold of the per-cell step over the
`cells_` vector. -/
theorem pre_place_snaps_to_last_overlap (ext : Ext) (groups : List Group)
    (cells_ : List Nat) (s : S) (i : Nat) :
    (non_group_pre_target ext groups (s i) =
      ((regionsOf groups).filter
        (fun r => ext.checkOverlap (s i) r)).getLast?) ∧
    (((s i).inGroup = true ∨ (s i).is_placed = true) →
      pre_place_step ext groups s i = ⟨s, []⟩) ∧
    ((s i).inGroup = false → (s i).is_placed = false →
      (non_group_pre_target ext groups (s i) = none →
        pre_place_step ext groups s i = ⟨s, []⟩) ∧
      (∀ target, non_group_pre_target ext groups (s i) = some target →
        (pre_place_step ext groups s i).trace =
          [.mapMoveXYEv i
            (ext.nearestCoordToRectBoundary (s i) target).1
            (ext.nearestCoordToRectBoundary (s i) target).2
            ((map_moveXY ext i
              (ext.nearestCoordToRectBoundary (s i) target).1
              (ext.nearestCoordToRectBoundary (s i) target).2 s).isSome)] ∧
        ((s i).hold = false →
          ((((pre_place_step ext groups s i).state) i).hold = true ↔
            (map_moveXY ext i
              (ext.nearestCoordToRectBoundary (s i) target).1
              (ext.nearestCoordToRectBoundary (s i) target).2 s).isSome = true)))) ∧
    (non_group_cell_pre_placement ext groups cells_ s =
      cells_.foldl
        (fun acc j =>
          let r := pre_place_step ext groups acc.state j
          { state := r.state, trace := acc.trace ++ r.trace })
        ⟨s, []⟩) := by
  refine ⟨non_group_pre_target_eq ext (s i) groups, ?_, ?_, rfl⟩
  · intro hskip
    have hcond : (!(s i).inGroup && !(s i).is_placed) = false := by
      rcases hskip with h | h <;> simp [h]
    simp [pre_place_step, hcond]
  · intro hin hpl
    have hcond : (!(s i).inGroup && !(s i).is_placed) = true := by
      simp [hin, hpl]
    constructor
    · intro htgt
      simp [pre_place_step, hcond, htgt]
    · intro target htgt
      cases hmm : ext.mapMoveXYPos i
          (ext.nearestCoordToRectBoundary (s i) target).1
          (ext.nearestCoordToRectBoundary (s i) target).2 s with
      | some p =>
        constructor
        · simp [pre_place_step, hcond, htgt, map_moveXY, hmm]
        · intro hhold
          simp [pre_place_step, hcond, htgt, map_moveXY, hmm, upd]
      | none =>
        constructor
        · simp [pre_place_step, hcond, htgt, map_moveXY, hmm]
        · intro hhold
          simp [pre_place_step, hcond, htgt, map_moveXY, hmm, hhold]

/-- Witness for the amended C7: the concrete two-region cell snaps to the
last overlapping region's boundary (20, 20). -/
theorem pre_place_snaps_to_last_overlap_witness :
    (pre_place_step ext0 [gC7a, gC7b] sC7 0).trace =
      [.mapMoveXYEv 0 20 20 true] := by
  have h := ((pre_place_snaps_to_last_overlap ext0 [gC7a, gC7b] [] sC7 0).2.2.1
    (by decide) (by decide)).2 rB (by decide)
  exact h.1.trans (by decide)

theorem brick1_step_trace (ext : Ext) (junk : Nat → Int × Int)
    (acc : PlaceOut) (i : Nat) :
    ∃ ok, (brick1_step ext junk acc i).trace =
      acc.trace ++ [.mapMoveXYEv i (junk i).1 (junk i).2 ok] := by
  cases hmm : ext.mapMoveXYPos i (junk i).1 (junk i).2 acc.state with
  | some p => exact ⟨true, by simp [brick1_step, map_moveXY, hmm]⟩
  | none => exact ⟨false, by simp [brick1_step, map_moveXY, hmm]⟩

theorem brick1_fold_keeps (ext : Ext) (junk : Nat → Int × Int) :
    ∀ (l : List Nat) (acc : PlaceOut) (ev : PlaceEv), ev ∈ acc.trace →
      ev ∈ (l.foldl (brick1_step ext junk) acc).trace := by
  intro l
  induction l with
  | nil => intro acc ev hev; simpa using hev
  | cons c l ih =>
    intro acc ev hev
    rw [List.foldl_cons]
    refine ih _ ev ?_
    obtain ⟨ok, hok⟩ := brick1_step_trace ext junk acc c
    rw [hok]
    exact List.mem_append_left _ hev

theorem brick1_fold_mem (ext : Ext) (junk : Nat → Int × Int) (i : Nat) :
    ∀ (l : List Nat) (acc : PlaceOut), i ∈ l →
      ∃ ok, PlaceEv.mapMoveXYEv i (junk i).1 (junk i).2 ok ∈
        (l.foldl (brick1_step ext junk) acc).trace := by
  intro l
  induction l with
  | nil => intro acc hi; simp at hi
  | cons c l ih =>
    intro acc hi
    rw [List.foldl_cons]
    rcases List.mem_cons.mp hi with hi | hi
    · subst hi
      obtain ⟨ok, hok⟩ := brick1_step_trace ext junk acc i
      exact ⟨ok, brick1_fold_keeps ext junk l _ _ (by rw [hok]; simp)⟩
    · exact ih _ hi

theorem brick2_step_hold (ext : Ext) (junk : Nat → Int × Int)
    (acc : PlaceOut) (i j : Nat) :
    ((brick2_step ext junk acc i).state j).hold = (acc.state j).hold := by
  by_cases hc : (acc.state i).hold = true
  · simp [brick2_step, hc]
  · have hcf : (acc.state i).hold = false := by
      cases hcc : (acc.state i).hold
      · rfl
      · exact absurd hcc hc
    cases hmm : ext.mapMoveXYPos i (junk i).1 (junk i).2 acc.state with
    | some p =>
      simp only [brick2_step, hcf, Bool.not_false, if_true, map_moveXY, hmm]
      by_cases hji : j = i <;> simp [upd, placeAt, hji]
    | none =>
      simp [brick2_step, hcf, map_moveXY, hmm]

theorem brick2_fold_hold (ext : Ext) (junk : Nat → Int × Int) :
    ∀ (l : List Nat) (acc : PlaceOut) (j : Nat),
      ((l.foldl (brick2_step ext junk) acc).state j).hold =
        (acc.state j).hold := by
  intro l
  induction l with
  | nil => intro acc j; rfl
  | cons c l ih =>
    intro acc j
    rw [List.foldl_cons, ih, brick2_step_hold]

theorem brick2_step_trace_append (ext : Ext) (junk : Nat → Int × Int)
    (acc : PlaceOut) (i : Nat) :
    (brick2_step ext junk acc i).trace = acc.trace ∨
    ∃ ok, (brick2_step ext junk acc i).trace =
      acc.trace ++ [.mapMoveXYEv i (junk i).1 (junk i).2 ok] := by
  by_cases hc : (acc.state i).hold = true
  · exact Or.inl (by simp [brick2_step, hc])
  · have hcf : (acc.state i).hold = false := by
      cases hcc : (acc.state i).hold
      · rfl
      · exact absurd hcc hc
    cases hmm : ext.mapMoveXYPos i (junk i).1 (junk i).2 acc.state with
    | some p => exact Or.inr ⟨true, by simp [brick2_step, hcf, map_moveXY, hmm]⟩
    | none => exact Or.inr ⟨false, by simp [brick2_step, hcf, map_moveXY, hmm]⟩

theorem brick2_fold_keeps (ext : Ext) (junk : Nat → Int × Int) :
    ∀ (l : List Nat) (acc : PlaceOut) (ev : PlaceEv), ev ∈ acc.trace →
      ev ∈ (l.foldl (brick2_step ext junk) acc).trace := by
  intro l
  induction l with
  | nil => intro acc ev hev; simpa using hev
  | cons c l ih =>
    intro acc ev hev
    rw [List.foldl_cons]
    refine ih _ ev ?_
    rcases brick2_step_trace_append ext junk acc c with h | ⟨ok, h⟩
    · rw [h]; exact hev
    · rw [h]; exact List.mem_append_left _ hev

theorem brick2_fold_mem (ext : Ext) (junk : Nat → Int × Int) (i : Nat) :
    ∀ (l : List Nat) (acc : PlaceOut), i ∈ l → (acc.state i).hold = false →
      ∃ ok, PlaceEv.mapMoveXYEv i (junk i).1 (junk i).2 ok ∈
        (l.foldl (brick2_step ext junk) acc).trace := by
  intro l
  induction l with
  | nil => intro acc hi; simp at hi
  | cons c l ih =>
    intro acc hi hhold
    rw [List.foldl_cons]
    rcases List.mem_cons.mp hi with hi | hi
    · subst hi
      refine ⟨(ext.mapMoveXYPos i (junk i).1 (junk i).2 acc.state).isSome,
        brick2_fold_keeps ext junk l _ _ ?_⟩
      cases hmm : ext.mapMoveXYPos i (junk i).1 (junk i).2 acc.state with
      | some p => simp [brick2_step, hhold, map_moveXY, hmm]
      | none => simp [brick2_step, hhold, map_moveXY, hmm]
    · refine ih _ hi ?_
      rw [brick2_step_hold]
      exact hhold

theorem brick2_fold_no_involve (ext : Ext) (junk : Nat → Int × Int)
    (i : Nat) :
    ∀ (l : List Nat) (acc : PlaceOut), (acc.state i).hold = true →
      (∀ ev ∈ acc.trace, involves i ev = false) →
      ∀ ev ∈ (l.foldl (brick2_step ext junk) acc).trace,
        involves i ev = false := by
  intro l
  induction l with
  | nil => intro acc hhold hacc ev hev; exact hacc ev hev
  | cons c l ih =>
    intro acc hhold hacc ev hev
    rw [List.foldl_cons] at hev
    by_cases hc : (acc.state c).hold = true
    · have hstep : brick2_step ext junk acc c = acc := by
        simp [brick2_step, hc]
      rw [hstep] at hev
      exact ih acc hhold hacc ev hev
    · have hci : c ≠ i := fun h => hc (h ▸ hhold)
      refine ih _ ?_ ?_ ev hev
      · rw [brick2_step_hold]; exact hhold
      · intro ev2 hev2
        rcases brick2_step_trace_append ext junk acc c with h | ⟨ok, h⟩
        · rw [h] at hev2; exact hacc ev2 hev2
        · rw [h] at hev2
          rcases List.mem_append.mp hev2 with hev2 | hev2
          · exact hacc ev2 hev2
          · have : ev2 = PlaceEv.mapMoveXYEv c (junk c).1 (junk c).2 ok := by
              simpa using hev2
            subst this
            simp [involves, hci]

/-- C10 (implicit): `brick_placement_1` does not exempt held cells — every
sibling of the group gets a direct commit attempt (at the indeterminate
local values), with no `hold` check — whereas `brick_placement_2` attempts
commits only for cells whose `hold` flag is false: an unheld sibling is
attempted, and no attempt of its trace ever touches a held cell. -/
theorem brick1_attempts_held_brick2_skips (ext : Ext)
    (junk : Nat → Int × Int) (g : Group) (s : S) (i : Nat) :
    (i ∈ g.siblings →
      ∃ ok, PlaceEv.mapMoveXYEv i (junk i).1 (junk i).2 ok ∈
        (brick_placement_1 ext junk g s).trace) ∧
    (i ∈ g.siblings → (s i).hold = false →
      ∃ ok, PlaceEv.mapMoveXYEv i (junk i).1 (junk i).2 ok ∈
        (brick_placement_2 ext junk g s).trace) ∧
    ((s i).hold = true →
      ∀ ev ∈ (brick_placement_2 ext junk g s).trace,
        involves i ev = false) := by
  refine ⟨?_, ?_, ?_⟩
  · intro hi
    exact brick1_fold_mem ext junk i _ _ ((mem_sortWith _ i g.siblings).mpr hi)
  · intro hi hhold
    exact brick2_fold_mem ext junk i _ _
      ((mem_sortWith _ i g.siblings).mpr hi) hhold
  · intro hhold
    exact brick2_fold_no_involve ext junk i _ _ hhold
      (by intro ev hev; simp at hev)

/-- Witness for C10: a held sibling still receives a `brick_placement_1`
commit attempt. -/
theorem brick1_attempts_held_witness :
    ∃ ok, PlaceEv.mapMoveXYEv 0 0 0 ok ∈
      (brick_placement_1 ext0 junk0 gW1 sHold).trace :=
  (brick1_attempts_held_brick2_skips ext0 junk0 gW1 sHold 0).1 (by decide)

/-- C3 (ordering law): `sortUpOrder` is irreflexive, asymmetric and
transitive, and total on cells with distinct ids — a strict total order
with descending priority area, then `dense_factor`, then ascending id —
and on the example population (areas [10, 10, 5], dense_factors [1, 2, 1],
ids [5, 3, 9]) the greedy placer `non_group_cell_placement` visits the
cells in the order id 3 (area 10 / dense 2), id 5 (area 10 / dense 1),
id 9 (area 5 / dense 1). -/
theorem ordering_law :
    (∀ c : Cell, sortUpOrder c c = false) ∧
    (∀ a b : Cell, sortUpOrder a b = true → sortUpOrder b a = false) ∧
    (∀ a b c : Cell, sortUpOrder a b = true → sortUpOrder b c = true →
      sortUpOrder a c = true) ∧
    (∀ a b : Cell, a.id ≠ b.id →
      sortUpOrder a b = true ∨ sortUpOrder b a = true) ∧
    (non_group_cell_placement ext0 [5, 3, 9] sEx3).trace =
      [.mapMoveEv 3 true, .mapMoveEv 5 true, .mapMoveEv 9 true] :=
  ⟨sortUpOrder_irrefl, sortUpOrder_asymm, sortUpOrder_trans,
   sortUpOrder_total, by decide⟩

/-- Witness for C3: totality applied to two of the example cells. -/
theorem ordering_law_witness :
    sortUpOrder cellA5 cellA9 = true ∨ sortUpOrder cellA9 cellA5 = true :=
  ordering_law.2.2.2.1 cellA5 cellA9 (by decide)

/-- C5 (group_refine comparator bug): the comparator `group_refine` hands
to its sort compares `disp(cell1)` with `disp(cell1)` — the same cell — so
it is **constantly false** and induces no ordering at all, while the
analogous `non_group_refine` comparator correctly orders by descending
displacement.  Concretely: for a cell with displacement 7 and one with
displacement 0 the group comparator still answers `false`, and on a group
whose most-displaced sibling (handle 2, displacement 7) sits last, with
`group_refine_percent_ = 1/2`, `group_refine` attempts only the
undisplaced handle 1 — not the sort-descending-by-displacement behavior
the claim describes. -/
theorem group_refine_comparator_constant :
    (∀ c1 c2 : Cell, group_refine_cmp c1 c2 = false) ∧
    disp cellD7 > disp cellD0 ∧
    group_refine_cmp cellD7 cellD0 = false ∧
    non_group_refine_cmp cellD7 cellD0 = true ∧
    (group_refine extC5 gC5 sC5).trace = [.refineEv 1 true] :=
  ⟨fun c1 c2 => by simp [group_refine_cmp], by decide, by decide, by decide,
   by decide⟩

/-- C6 (brick strategy 1 commit coordinates): the commit attempt of
`brick_placement_1` is made at the indeterminate values of the
uninitialized locals `x_tar, y_tar` (here `junkC6 = (-1, -1)`), not at the
nearest quadrant corner of the group's bounding rectangle — for the
example cell (original target (7, 1), boundary x in [0, 8], y in [0, 9])
that corner is (8, 0), computed by `rectDistTarget`, but the recorded
attempt is at (-1, -1).  In general every `brick1_step` attempt is at
`junk i`, whatever `rectDistTarget` returns. -/
theorem brick1_uninitialized_target :
    (brick_placement_1 ext0 junkC6 gC6 sC6).trace =
      [.mapMoveXYEv 0 (-1) (-1) true] ∧
    rectDistTarget (sC6 0) gC6.boundary = (8, 0) ∧
    ((-1 : Int), (-1 : Int)) ≠ ((8 : Int), (0 : Int)) ∧
    (∀ (ext : Ext) (junk : Nat → Int × Int) (acc : PlaceOut) (i : Nat),
      ∃ ok, (brick1_step ext junk acc i).trace =
        acc.trace ++ [.mapMoveXYEv i (junk i).1 (junk i).2 ok]) :=
  ⟨by decide, by decide, by decide, brick1_step_trace⟩

end OpendpModel
